import Mathlib

/-!
Verification of the generator state machine and declaration resolver of the
fuzzapi repository (src/variable.rs, src/api.rs).

The embedding below translates the Rust source directly:

* `Gen` models the `Generator` trait objects of variable.rs.  The four
  scalar generators (`GenEnum`, `GenI32`, `GenUsize`, `GenPointer`) share one
  shape: a type-class catalog with `n = cls.n()` entries and a cursor `idx`;
  their `value`/`next`/`done`/`n_state`/`reset` bodies are textually identical
  up to the catalog, so they are embedded as one constructor `Gen.scalar n idx`
  with the catalog size `n` as a parameter (the catalog module tc.rs is not
  part of the sources under verification; only its size enters the state
  machine).  `GenCString` has its own constructor because its `next`/`done`
  bodies differ (`next` guards on `idx < 8`, not `idx < n_state()-1`).
  `GenUDT` holds the vector of child generators.  (`GenUDT` also stores a
  field `idx: Vec<usize>` which no method ever reads; it is omitted.)
* Randomness (`rand::ThreadRng`) is modelled as a tape `Nat → Nat` of raw
  draws; `Range::new(lo,hi).ind_sample` maps a draw `d` to `lo + d % (hi-lo)`,
  a value uniformly ranging over `[lo, hi)` exactly as rand 0.3 does.  The
  rejection loops in `GenCString::normal`/`special` get explicit fuel; on
  exhausted fuel the last in-range sample is returned (the Rust loop would
  keep drawing; every modelled outcome is a possible outcome of the loop).
* Panics (`panic!`, `unreachable!`, `assert!`, `unimplemented!`) are modelled
  as `Option`/`Except` failure values.
-/

/-- State of a `Generator` trait object from variable.rs.
`scalar n idx` embeds `GenEnum`/`GenI32`/`GenUsize`/`GenPointer` (catalog size
`n`, cursor `idx`); `cstring idx` embeds `GenCString`; `udt children` embeds
`GenUDT`. -/
inductive Gen where
  | scalar (n idx : Nat)
  | cstring (idx : Nat)
  | udt (children : List Gen)

mutual
/-- `Generator::done`.  Scalars: `self.idx >= self.cls.n()-1`.
`GenCString::done`: `self.idx >= 7`.  `GenUDT::done`:
`self.values.iter().all(|v| v.done())`. -/
def Gen.done : Gen → Bool
  | .scalar n idx => idx ≥ n - 1
  | .cstring idx => idx ≥ 7
  | .udt cs => Gen.doneList cs

/-- The `iter().all(|v| v.done())` loop of `GenUDT::done`. -/
def Gen.doneList : List Gen → Bool
  | [] => true
  | c :: cs => c.done && Gen.doneList cs
end

mutual
/-- `Generator::reset`.  Scalars and `GenCString`: `self.idx = 0`.
`GenUDT::reset`: resets every child. -/
def Gen.reset : Gen → Gen
  | .scalar n _ => .scalar n 0
  | .cstring _ => .cstring 0
  | .udt cs => .udt (Gen.resetList cs)

/-- The `for v in 0..self.values.len() { self.values[v].reset(); }` loop of
`GenUDT::reset`. -/
def Gen.resetList : List Gen → List Gen
  | [] => []
  | c :: cs => c.reset :: Gen.resetList cs
end

/-- `self.values.iter().rposition(|v| !v.done())` in `GenUDT::next`: the
index of the last child that is not done. -/
def Gen.rposNotDone : List Gen → Option Nat
  | [] => none
  | c :: cs =>
    match Gen.rposNotDone cs with
    | some k => some (k + 1)
    | none => if c.done then none else some 0

mutual
/-- `Generator::next`.  Scalars: `if self.idx < self.cls.n()-1 { self.idx += 1 }`.
`GenCString::next`: `if self.idx < 8 { self.idx += 1 }` (note: guarded by the
state count 8, not by `8 - 1`).  `GenUDT::next`: find the last not-done child
(`rposition`); if none, bail; otherwise advance that child and reset every
child after it. -/
def Gen.next : Gen → Gen
  | .scalar n idx => if idx < n - 1 then .scalar n (idx + 1) else .scalar n idx
  | .cstring idx => if idx < 8 then .cstring (idx + 1) else .cstring idx
  | .udt cs =>
    match Gen.rposNotDone cs with
    | none => .udt cs
    | some k => .udt (Gen.nextAt k cs)

/-- `self.values[nxt].next(); for idx in nxt+1..self.values.len() { reset }`:
advance the child at position `k`, reset all children after it. -/
def Gen.nextAt : Nat → List Gen → List Gen
  | _, [] => []
  | 0, c :: cs => c.next :: Gen.resetList cs
  | k + 1, c :: cs => c :: Gen.nextAt k cs
end

/-- The child-list transition performed by `GenUDT::next` (the body of the
`udt` arm of `Gen.next`, as a function on the child list). -/
def Gen.udtNext (cs : List Gen) : List Gen :=
  match Gen.rposNotDone cs with
  | none => cs
  | some k => Gen.nextAt k cs

mutual
/-- `Generator::n_state`.  Scalars: `self.cls.n()`.  `GenCString::n_state`: 8.
`GenUDT::n_state`: `self.values.iter().fold(1, |acc, v| acc * v.n_state())`. -/
def Gen.nState : Gen → Nat
  | .scalar n _ => n
  | .cstring _ => 8
  | .udt cs => Gen.nStateFold 1 cs

/-- The `fold(1, |acc, v| acc * v.n_state())` of `GenUDT::n_state`. -/
def Gen.nStateFold : Nat → List Gen → Nat
  | acc, [] => acc
  | acc, c :: cs => Gen.nStateFold (acc * c.nState) cs
end

/-- Product of the state counts of a list of generators (the closed form of
`Gen.nStateFold 1`, used throughout the proofs). -/
def Gen.nStateList : List Gen → Nat
  | [] => 1
  | c :: cs => c.nState * Gen.nStateList cs

mutual
/-- Abstract position of a generator in its own state sequence: the scalar
cursor for primitive generators, and the mixed-radix (first child most
significant) value of the child positions for `GenUDT`. -/
def Gen.rank : Gen → Nat
  | .scalar _ idx => idx
  | .cstring idx => idx
  | .udt cs => Gen.rankList cs

/-- Mixed-radix value of a child list: the head child is most significant. -/
def Gen.rankList : List Gen → Nat
  | [] => 0
  | c :: cs => c.rank * Gen.nStateList cs + Gen.rankList cs
end

mutual
/-- The structural invariant claimed by the spec: every cursor satisfies
`0 ≤ index < state_count` (with a nonempty catalog for scalars). -/
def Gen.wf : Gen → Bool
  | .scalar n idx => decide (1 ≤ n) && decide (idx < n)
  | .cstring idx => decide (idx < 8)
  | .udt cs => Gen.wfList cs

/-- `Gen.wf` for every child. -/
def Gen.wfList : List Gen → Bool
  | [] => true
  | c :: cs => c.wf && Gen.wfList cs
end

/-- The observable tuple of child indices of a composite generator (for a
primitive generator, the one-element tuple of its cursor). -/
def Gen.idxTuple : Gen → List Nat
  | .scalar _ idx => [idx]
  | .cstring idx => [idx]
  | .udt cs => cs.map Gen.rank

/-- The per-child state counts (radices) of a generator. -/
def Gen.radicesOf : Gen → List Nat
  | .scalar n _ => [n]
  | .cstring _ => [8]
  | .udt cs => cs.map Gen.nState

/-- The sequence of index tuples read by a full traversal of `GenUDT` over
children `cs`: reset, then read the tuple and advance, `n_state()` times. -/
def travTuples (cs : List Gen) : List (List Nat) :=
  (List.range (Gen.nState (Gen.udt cs))).map
    (fun k => Gen.idxTuple (Gen.next^[k] (Gen.reset (Gen.udt cs))))

/-- Mixed-radix value of a tuple `ts` with radices `ns` (head most
significant); the weight of a digit is the product of the radices after it. -/
def tupleRank : List Nat → List Nat → Nat
  | _ :: ns, t :: ts => t * List.prod ns + tupleRank ns ts
  | _, _ => 0

/-- `ts` is a digit tuple for the radices `ns`: same length, each entry below
its radix. -/
def boundedB : List Nat → List Nat → Bool
  | [], [] => true
  | n :: ns, t :: ts => decide (t < n) && boundedB ns ts
  | _, _ => false

/-- Strict lexicographic comparison of index tuples. -/
def lexLtB : List Nat → List Nat → Bool
  | [], [] => false
  | [], _ :: _ => true
  | _ :: _, [] => false
  | a :: as, b :: bs => decide (a < b) || (decide (a = b) && lexLtB as bs)

/-- Shape of a type as seen by the generator dispatch `variable::generator`:
a primitive catalog of size `n` (enum / i32 / usize / non-char pointer, all
landing in a scalar generator), a pointer-to-character (C string), or a
user-defined aggregate with a list of member shapes. -/
inductive Ty where
  | scalarTy (n : Nat)
  | cstringTy
  | udtTy (fields : List Ty)

mutual
/-- `variable::generator` composed with the `create` constructors: every
`create` starts its cursor at 0 (`GenEnum{.., idx: 0}`, `GenCString{idx: 0, ..}`)
and `GenUDT::create` builds one child per member type recursively, with an
all-zero index vector. -/
def genOfType : Ty → Gen
  | .scalarTy n => .scalar n 0
  | .cstringTy => .cstring 0
  | .udtTy fs => .udt (genOfTypeList fs)

/-- The `for x in tys.iter() { val.push(generator(&x)) }` loop of
`GenUDT::create`. -/
def genOfTypeList : List Ty → List Gen
  | [] => []
  | t :: ts => genOfType t :: genOfTypeList ts
end

mutual
/-- The type shape a generator state was built from. -/
def Gen.shape : Gen → Ty
  | .scalar n _ => .scalarTy n
  | .cstring _ => .cstringTy
  | .udt cs => .udtTy (Gen.shapeList cs)

/-- `Gen.shape` of every child. -/
def Gen.shapeList : List Gen → List Ty
  | [] => []
  | c :: cs => c.shape :: Gen.shapeList cs
end

/-- The two mutating operations of the `Generator` trait. -/
inductive GOp where
  | adv
  | rst

/-- Apply one `Generator` operation. -/
def applyOp : GOp → Gen → Gen
  | .adv, g => g.next
  | .rst, g => g.reset

/-- Apply a sequence of `Generator` operations, oldest first. -/
def applyOps (ops : List GOp) (g : Gen) : Gen :=
  ops.foldl (fun h op => applyOp op h) g

/-- `Range::new(lo, hi).ind_sample(rng)` of rand 0.3: a uniform draw from the
half-open interval `[lo, hi)`, here driven by the raw draw `d`. -/
def sampleIn (lo hi d : Nat) : Nat := lo + d % (hi - lo)

/-- `GenCString::normal`'s rejection set: `['"' as u8, '?' as u8, '\\' as u8]`. -/
def normalDisallowed : List Nat := [34, 63, 92]

/-- `GenCString::special`'s rejection set: `[7,8,9,10,11,12,13]`. -/
def specialDisallowed : List Nat := [7, 8, 9, 10, 11, 12, 13]

/-- Rejection sampling loop of `GenCString::normal`/`special`: draw from
`[lo, hi)`, redraw while the draw is disallowed.  `tape` supplies the raw
draws, `pos` is the next tape position, `fuel` bounds the number of redraws
(when it runs out the final in-range draw is returned). -/
def rejSample (lo hi : Nat) (bad : List Nat) (tape : Nat → Nat) :
    Nat → Nat → Nat × Nat
  | pos, 0 => (sampleIn lo hi (tape pos), pos + 1)
  | pos, fuel + 1 =>
    if bad.contains (sampleIn lo hi (tape pos)) then
      rejSample lo hi bad tape (pos + 1) fuel
    else (sampleIn lo hi (tape pos), pos + 1)

/-- `GenCString::normal`: a character from `Range::new(32,126)` avoiding
quote, question mark and backslash.  Returns the character and the next tape
position. -/
def normalChar (tape : Nat → Nat) (pos fuel : Nat) : Nat × Nat :=
  rejSample 32 126 normalDisallowed tape pos fuel

/-- `GenCString::special`: a character from `Range::new(0,31)` avoiding the
whitespace-control codes 7..13. -/
def specialChar (tape : Nat → Nat) (pos fuel : Nat) : Nat × Nat :=
  rejSample 0 31 specialDisallowed tape pos fuel

/-- `for _ in 0..length { write!(.., sampler()) }`: emit `count` characters,
threading the tape position through the given per-character sampler. -/
def genChars (sampler : Nat → Nat × Nat) : Nat → Nat → List Nat
  | 0, _ => []
  | count + 1, pos =>
    (sampler pos).1 :: genChars sampler count (sampler pos).2

/-- The character codes written between the enclosing quotes by
`GenCString::value` for class `idx` (classes 0 and 1 write none).  Each match
arm mirrors the corresponding arm of the Rust `match self.idx`; lengths are
drawn first (`Range::new(3,128)` resp. `Range::new(512,32768)`), and class 6
draws `Range::new(0,1)` per character to choose between the normal and the
special alphabet. -/
def cstringChars (idx : Nat) (tape : Nat → Nat) (fuel : Nat) : List Nat :=
  match idx with
  | 2 => [(normalChar tape 0 fuel).1]
  | 3 => [(specialChar tape 0 fuel).1]
  | 4 => genChars (fun p => normalChar tape p fuel) (sampleIn 3 128 (tape 0)) 1
  | 5 => genChars (fun p => specialChar tape p fuel) (sampleIn 3 128 (tape 0)) 1
  | 6 =>
    genChars
      (fun p =>
        if sampleIn 0 1 (tape p) == 0 then normalChar tape (p + 1) fuel
        else specialChar tape (p + 1) fuel)
      (sampleIn 3 128 (tape 0)) 1
  | 7 => genChars (fun p => normalChar tape p fuel) (sampleIn 512 32768 (tape 0)) 1
  | _ => []

/-- `GenCString::value`.  `idx == 0` is special-cased first and returns the
literal text `""` verbatim; every other class below 8 wraps its characters in
quotes; `assert!(self.idx < 8)` makes any larger index a panic (`none`). -/
def cstringValue (idx : Nat) (tape : Nat → Nat) (fuel : Nat) : Option String :=
  if idx == 0 then some "\"\""
  else if idx < 8 then
    some ("\"" ++ String.mk ((cstringChars idx tape fuel).map Char.ofNat) ++ "\"")
  else none

/-- `variable::ScalarOp`. -/
inductive ScalarOp where
  | Null
  | Deref
  | AddressOf

/-- The generator box stored in a `Source`: either a real generator built by
`variable::generator` (which never produces `GenNothing`) or the `GenNothing`
placeholder attached to non-free sources. -/
inductive BoxedGen where
  | real (g : Gen)
  | nothing

/-- Whether the box holds `GenNothing`. -/
def BoxedGen.isNothing : BoxedGen → Bool
  | .real _ => false
  | .nothing => true

/-- `GenNothing::value`: `panic!("Null generator called")`. -/
def genNothingValue : Option String := none

/-- `GenNothing::next`: `panic!("Null generator can't advance")`. -/
def genNothingNext : Option Unit := none

/-- `GenNothing::done`: `return true`. -/
def genNothingDone : Bool := true

/-- `GenNothing::n_state`: `1`. -/
def genNothingNState : Nat := 1

/-- `variable::Source`: name, generator, scalar op, parent vector (at most
one entry), fully-qualified function name. -/
inductive Source where
  | mk (name : String) (generator : BoxedGen) (op : ScalarOp)
       (parent : List Source) (fqn : String)

/-- The `generator` field of a `Source`. -/
def Source.generator : Source → BoxedGen
  | .mk _ g _ _ _ => g

/-- `Source::free`: a free variable of type `ty`; its generator is
`generator(ty)`. -/
def Source.free (nm : String) (ty : Ty) (o : ScalarOp) : Source :=
  .mk nm (.real (genOfType ty)) o [] ""

/-- `Source::bound`: empty name, `GenNothing` generator, one parent. -/
def Source.bound (parent : Source) (o : ScalarOp) : Source :=
  .mk "" .nothing o [parent] ""

/-- `Source::retval`: named, `GenNothing` generator, no parent, nonempty fqn. -/
def Source.retval (name fqn : String) (oper : ScalarOp) : Source :=
  .mk name .nothing oper [] fqn

/-- `typ::Type` as used by api.rs and variable.rs (typ.rs itself is not among
the sources; the variants are reconstructed from their uses: `Type::I32`,
`Type::Usize`, `Type::Character`, `Type::Integer`, `Type::Pointer`,
`Type::Struct(name, fields)`, `Type::Enum(name, values)`,
`Type::Field(name, ty)`, `Type::UDT(name, types)`). -/
inductive RType where
  | I32
  | Usize
  | Character
  | Integer
  | Void
  | Pointer (pointee : RType)
  | Struct (name : String) (fields : List (String × RType))
  | Enum (name : String) (values : List (String × Int))
  | Field (name : String) (ty : RType)
  | UDT (name : String) (members : List RType)

mutual
/-- `api::DeclType`. -/
inductive DeclType where
  | Basic (ty : RType)
  | Struct (udt : List UDTDecl)
  | Enum (values : List (String × Int))
  | StructRef (name : String)
  | EnumRef (name : String)

/-- `api::UDTDecl`: a declared member name and its declared type. -/
inductive UDTDecl where
  | mk (name : String) (ty : DeclType)
end

/-- The `name` field of `api::UDTDecl`. -/
def UDTDecl.name : UDTDecl → String
  | .mk n _ => n

/-- The `ty` field of `api::UDTDecl`. -/
def UDTDecl.ty : UDTDecl → DeclType
  | .mk _ t => t

/-- `api::FreeVarDecl`. -/
structure FreeVarDecl where
  name : String
  op : ScalarOp
  genname : String
  ty : DeclType

/-- `api::FuncDecl`. -/
structure FuncDecl where
  name : String
  retval : DeclType
  arguments : List DeclType

/-- `api::Declaration`. -/
inductive Declaration where
  | Free (v : FreeVarDecl)
  | Function (f : FuncDecl)
  | UDT (u : UDTDecl)

/-- `typ::Decl` as used by `api::resolve_types` (only the `Decl::Ty` variant
appears in api.rs; typ.rs itself is not among the sources). -/
inductive TDecl where
  | Ty (t : RType)

mutual
/-- `api::type_from_decl`.  `unimplemented!()` arms are errors.  A `Struct`
declaration is lowered by the field loop `structFields`; note the produced
struct is named `"_unnamed_struct_"` and no declared member name is used. -/
def typeFromDecl : DeclType → Except String RType
  | .Basic ty => .ok ty
  | .Struct udt =>
    match structFields udt with
    | .ok flds => .ok (RType.Struct "_unnamed_struct_" flds)
    | .error e => .error e
  | .Enum _ => .error "unimplemented DeclType::Enum"
  | .StructRef _ => .error "unimplemented DeclType::StructRef"
  | .EnumRef _ => .error "unimplemented DeclType::EnumRef"

/-- The `for f in udt` loop inside `type_from_decl`'s `Struct` arm: a `Basic`
member pushes `("_unnamed_", ty)`, a nested `Struct` member pushes one
`("_unnamed2_", subtype)` entry per sub-member, an `Enum` member pushes
`("_unnamed3_", Type::Enum("_unnamed_enum_", en))`, and the `*Ref` members hit
`unimplemented!()`. -/
def structFields : List UDTDecl → Except String (List (String × RType))
  | [] => .ok []
  | .mk _ fty :: fs =>
    match fty with
    | .Basic ty =>
      match structFields fs with
      | .ok rest => .ok (("_unnamed_", ty) :: rest)
      | .error e => .error e
    | .Struct st =>
      match subFields st with
      | .ok sub =>
        match structFields fs with
        | .ok rest => .ok (sub ++ rest)
        | .error e => .error e
      | .error e => .error e
    | .Enum en =>
      match structFields fs with
      | .ok rest => .ok (("_unnamed3_", RType.Enum "_unnamed_enum_" en) :: rest)
      | .error e => .error e
    | .StructRef _ => .error "unimplemented DeclType::StructRef"
    | .EnumRef _ => .error "unimplemented DeclType::EnumRef"

/-- The `for s in st` loop inside the nested-`Struct` arm: each sub-member is
lowered recursively and pushed as `("_unnamed2_", subtype)`. -/
def subFields : List UDTDecl → Except String (List (String × RType))
  | [] => .ok []
  | .mk _ sty :: ss =>
    match typeFromDecl sty with
    | .ok subtype =>
      match subFields ss with
      | .ok rest => .ok (("_unnamed2_", subtype) :: rest)
      | .error e => .error e
    | .error e => .error e
end

/-- The `for decl in decls` loop of `api::resolve_types`: a `Free` declaration
contributes `Decl::Ty(type_from_decl(..))`; `Function` and `UDT` declarations
contribute nothing. -/
def resolveLoop : List Declaration → Except String (List TDecl)
  | [] => .ok []
  | .Free fvar :: rest =>
    match typeFromDecl fvar.ty with
    | .ok t =>
      match resolveLoop rest with
      | .ok drv => .ok (TDecl.Ty t :: drv)
      | .error e => .error e
    | .error e => .error e
  | .Function _ :: rest => resolveLoop rest
  | .UDT _ :: rest => resolveLoop rest

/-- `api::resolve_types`: `assert!(decls.len() > 0)` first (an empty list is a
fatal error), then the declaration loop; the returned `Source` vector is the
literal `vec![]` of the Rust code, so no `Generator` is ever constructed. -/
def resolveTypes (decls : List Declaration) :
    Except String (List TDecl × List Source) :=
  if decls.length > 0 then
    match resolveLoop decls with
    | .ok drv => .ok (drv, [])
    | .error e => .error e
  else .error "assertion failed: decls.len() > 0"

theorem Gen.next_udt (cs : List Gen) :
    Gen.next (Gen.udt cs) = Gen.udt (Gen.udtNext cs) := by
  cases h : Gen.rposNotDone cs <;> simp [Gen.next, Gen.udtNext, h]

theorem Gen.nStateFold_eq : ∀ (cs : List Gen) (a : Nat),
    Gen.nStateFold a cs = a * Gen.nStateList cs
  | [], a => by simp [Gen.nStateFold, Gen.nStateList]
  | c :: cs, a => by
    simp [Gen.nStateFold, Gen.nStateList, Gen.nStateFold_eq cs (a * c.nState),
      Nat.mul_assoc]

theorem Gen.nState_udt (cs : List Gen) :
    Gen.nState (Gen.udt cs) = Gen.nStateList cs := by
  simp [Gen.nState, Gen.nStateFold_eq]

theorem Gen.nStateList_eq_prod : ∀ cs : List Gen,
    Gen.nStateList cs = (cs.map Gen.nState).prod
  | [] => by simp [Gen.nStateList]
  | c :: cs => by simp [Gen.nStateList, Gen.nStateList_eq_prod cs]

mutual
theorem Gen.one_le_nState : ∀ g : Gen, g.wf = true → 1 ≤ g.nState
  | .scalar n _, h => by
    simp [Gen.wf] at h
    simpa [Gen.nState] using h.1
  | .cstring _, _ => by simp [Gen.nState]
  | .udt cs, h => by
    simp [Gen.wf] at h
    simpa [Gen.nState_udt] using Gen.one_le_nStateList cs h

theorem Gen.one_le_nStateList : ∀ cs : List Gen,
    Gen.wfList cs = true → 1 ≤ Gen.nStateList cs
  | [], _ => by simp [Gen.nStateList]
  | c :: cs, h => by
    simp [Gen.wfList] at h
    have h1 := Gen.one_le_nState c h.1
    have h2 := Gen.one_le_nStateList cs h.2
    simp only [Gen.nStateList]
    exact Nat.one_le_iff_ne_zero.mpr (Nat.mul_ne_zero (by omega) (by omega))
end

mutual
theorem Gen.nState_reset : ∀ g : Gen, g.reset.nState = g.nState
  | .scalar n idx => by simp [Gen.reset, Gen.nState]
  | .cstring idx => by simp [Gen.reset, Gen.nState]
  | .udt cs => by
    simp [Gen.reset, Gen.nState_udt, Gen.nStateList_eq_prod,
      Gen.map_nState_resetList cs]

theorem Gen.map_nState_resetList : ∀ cs : List Gen,
    (Gen.resetList cs).map Gen.nState = cs.map Gen.nState
  | [] => rfl
  | c :: cs => by
    simp [Gen.resetList, Gen.nState_reset c, Gen.map_nState_resetList cs]
end

theorem Gen.nStateList_resetList (cs : List Gen) :
    Gen.nStateList (Gen.resetList cs) = Gen.nStateList cs := by
  simp [Gen.nStateList_eq_prod, Gen.map_nState_resetList]

mutual
theorem Gen.nState_next : ∀ g : Gen, g.next.nState = g.nState
  | .scalar n idx => by
    by_cases h : idx < n - 1 <;> simp [Gen.next, Gen.nState, h]
  | .cstring idx => by
    by_cases h : idx < 8 <;> simp [Gen.next, Gen.nState, h]
  | .udt cs => by
    cases h : Gen.rposNotDone cs with
    | none => simp [Gen.next, h]
    | some k =>
      simp [Gen.next, h, Gen.nState_udt, Gen.nStateList_eq_prod,
        Gen.map_nState_nextAt k cs]

theorem Gen.map_nState_nextAt : ∀ (k : Nat) (cs : List Gen),
    (Gen.nextAt k cs).map Gen.nState = cs.map Gen.nState
  | _, [] => by simp [Gen.nextAt]
  | 0, c :: cs => by
    simp [Gen.nextAt, Gen.nState_next c, Gen.map_nState_resetList cs]
  | k + 1, c :: cs => by
    simp [Gen.nextAt, Gen.map_nState_nextAt k cs]
end

theorem Gen.map_nState_udtNext (cs : List Gen) :
    (Gen.udtNext cs).map Gen.nState = cs.map Gen.nState := by
  cases h : Gen.rposNotDone cs with
  | none => simp [Gen.udtNext, h]
  | some k => simp [Gen.udtNext, h, Gen.map_nState_nextAt]

theorem Gen.nStateList_udtNext (cs : List Gen) :
    Gen.nStateList (Gen.udtNext cs) = Gen.nStateList cs := by
  simp [Gen.nStateList_eq_prod, Gen.map_nState_udtNext]

mutual
theorem Gen.rank_reset : ∀ g : Gen, g.reset.rank = 0
  | .scalar n idx => by simp [Gen.reset, Gen.rank]
  | .cstring idx => by simp [Gen.reset, Gen.rank]
  | .udt cs => by simp [Gen.reset, Gen.rank, Gen.rankList_resetList cs]

theorem Gen.rankList_resetList : ∀ cs : List Gen,
    Gen.rankList (Gen.resetList cs) = 0
  | [] => rfl
  | c :: cs => by
    simp [Gen.resetList, Gen.rankList, Gen.rank_reset c,
      Gen.rankList_resetList cs]
end

mutual
theorem Gen.wf_reset : ∀ g : Gen, g.wf = true → g.reset.wf = true
  | .scalar n idx, h => by
    simp [Gen.wf] at h
    simp [Gen.reset, Gen.wf]
    omega
  | .cstring idx, _ => by simp [Gen.reset, Gen.wf]
  | .udt cs, h => by
    simp [Gen.wf] at h
    simpa [Gen.reset, Gen.wf] using Gen.wfList_resetList cs h

theorem Gen.wfList_resetList : ∀ cs : List Gen,
    Gen.wfList cs = true → Gen.wfList (Gen.resetList cs) = true
  | [], _ => rfl
  | c :: cs, h => by
    simp [Gen.wfList] at h
    simp [Gen.resetList, Gen.wfList, Gen.wf_reset c h.1,
      Gen.wfList_resetList cs h.2]
end

theorem Gen.nStateList_nextAt (k : Nat) (cs : List Gen) :
    Gen.nStateList (Gen.nextAt k cs) = Gen.nStateList cs := by
  simp [Gen.nStateList_eq_prod, Gen.map_nState_nextAt]

mutual
theorem Gen.rank_lt_nState : ∀ g : Gen, g.wf = true → g.rank < g.nState
  | .scalar n idx, h => by
    simp [Gen.wf] at h
    simpa [Gen.rank, Gen.nState] using h.2
  | .cstring idx, h => by
    simp [Gen.wf] at h
    simpa [Gen.rank, Gen.nState] using h
  | .udt cs, h => by
    simp [Gen.wf] at h
    simpa [Gen.rank, Gen.nState_udt] using Gen.rankList_lt_nStateList cs h

theorem Gen.rankList_lt_nStateList : ∀ cs : List Gen,
    Gen.wfList cs = true → Gen.rankList cs < Gen.nStateList cs
  | [], _ => by simp [Gen.rankList, Gen.nStateList]
  | c :: cs, h => by
    simp [Gen.wfList] at h
    have hc : c.rank + 1 ≤ c.nState := Gen.rank_lt_nState c h.1
    have hcs : Gen.rankList cs + 1 ≤ Gen.nStateList cs :=
      Gen.rankList_lt_nStateList cs h.2
    have h2 : c.rank * Gen.nStateList cs + Gen.nStateList cs ≤
        c.nState * Gen.nStateList cs := by
      have := mul_le_mul_right' hc (Gen.nStateList cs)
      rwa [Nat.succ_mul] at this
    simp only [Gen.rankList, Gen.nStateList]
    omega
end

theorem Gen.rposNotDone_none_iff : ∀ cs : List Gen,
    Gen.rposNotDone cs = none ↔ Gen.doneList cs = true
  | [] => by simp [Gen.rposNotDone, Gen.doneList]
  | c :: cs => by
    cases h : Gen.rposNotDone cs with
    | some k =>
      have hne : Gen.doneList cs ≠ true := by
        intro hd
        simp [(Gen.rposNotDone_none_iff cs).mpr hd] at h
      constructor
      · intro hx
        simp [Gen.rposNotDone, h] at hx
      · intro hx
        simp [Gen.doneList] at hx
        exact absurd hx.2 hne
    | none =>
      have hd : Gen.doneList cs = true := (Gen.rposNotDone_none_iff cs).mp h
      by_cases hc : c.done = true <;>
        simp [Gen.rposNotDone, h, Gen.doneList, hc, hd]

mutual
theorem Gen.done_iff_rank : ∀ g : Gen, g.wf = true →
    (g.done = true ↔ g.rank + 1 = g.nState)
  | .scalar n idx, h => by
    simp [Gen.wf] at h
    simp [Gen.done, Gen.rank, Gen.nState]
    omega
  | .cstring idx, h => by
    simp [Gen.wf] at h
    simp [Gen.done, Gen.rank, Gen.nState]
    omega
  | .udt cs, h => by
    simp [Gen.wf] at h
    simpa [Gen.done, Gen.rank, Gen.nState_udt] using
      Gen.doneList_iff_rankList cs h

theorem Gen.doneList_iff_rankList : ∀ cs : List Gen, Gen.wfList cs = true →
    (Gen.doneList cs = true ↔ Gen.rankList cs + 1 = Gen.nStateList cs)
  | [], _ => by simp [Gen.doneList, Gen.rankList, Gen.nStateList]
  | c :: cs, h => by
    simp [Gen.wfList] at h
    have hc : c.rank + 1 ≤ c.nState := Gen.rank_lt_nState c h.1
    have hcs : Gen.rankList cs + 1 ≤ Gen.nStateList cs :=
      Gen.rankList_lt_nStateList cs h.2
    have ihc := Gen.done_iff_rank c h.1
    have ihcs := Gen.doneList_iff_rankList cs h.2
    have hmul : c.rank * Gen.nStateList cs + Gen.nStateList cs ≤
        c.nState * Gen.nStateList cs := by
      have := mul_le_mul_right' hc (Gen.nStateList cs)
      rwa [Nat.succ_mul] at this
    simp only [Gen.doneList, Gen.rankList, Gen.nStateList, Bool.and_eq_true]
    constructor
    · rintro ⟨h1, h2⟩
      have e1 := ihc.mp h1
      have e2 := ihcs.mp h2
      have : (c.rank + 1) * Gen.nStateList cs = c.nState * Gen.nStateList cs :=
        by rw [e1]
      rw [Nat.succ_mul] at this
      omega
    · intro hsum
      have hr : Gen.rankList cs + 1 = Gen.nStateList cs := by omega
      have hmul2 : (c.rank + 1) * Gen.nStateList cs =
          c.nState * Gen.nStateList cs := by
        rw [Nat.succ_mul]
        omega
      have hn : 0 < Gen.nStateList cs := by omega
      have := Nat.eq_of_mul_eq_mul_right hn hmul2
      exact ⟨ihc.mpr this, ihcs.mpr hr⟩
end

mutual
theorem Gen.next_rank : ∀ g : Gen, g.wf = true → g.done = false →
    g.next.wf = true ∧ g.next.rank = g.rank + 1
  | .scalar n idx, h, hd => by
    simp [Gen.wf] at h
    simp [Gen.done] at hd
    have hlt : idx < n - 1 := by omega
    simp [Gen.next, hlt, Gen.wf, Gen.rank]
    omega
  | .cstring idx, h, hd => by
    simp [Gen.wf] at h
    simp [Gen.done] at hd
    have hlt : idx < 8 := by omega
    simp [Gen.next, hlt, Gen.wf, Gen.rank]
    omega
  | .udt cs, h, hd => by
    simp [Gen.wf] at h
    simp [Gen.done] at hd
    have := Gen.udtNext_rank cs h hd
    constructor
    · rw [Gen.next_udt]
      simpa [Gen.wf] using this.1
    · rw [Gen.next_udt]
      simpa [Gen.rank] using this.2

theorem Gen.udtNext_rank : ∀ cs : List Gen,
    Gen.wfList cs = true → Gen.doneList cs = false →
    Gen.wfList (Gen.udtNext cs) = true ∧
    Gen.rankList (Gen.udtNext cs) = Gen.rankList cs + 1
  | [], _, hd => by simp [Gen.doneList] at hd
  | c :: cs, h, hd => by
    simp [Gen.wfList] at h
    cases h' : Gen.rposNotDone cs with
    | some k =>
      have hdcs : Gen.doneList cs = false := by
        cases ht : Gen.doneList cs with
        | false => rfl
        | true => simp [(Gen.rposNotDone_none_iff cs).mpr ht] at h'
      have ih := Gen.udtNext_rank cs h.2 hdcs
      rw [Gen.udtNext, h'] at ih
      have hnext : Gen.udtNext (c :: cs) = c :: Gen.nextAt k cs := by
        simp [Gen.udtNext, Gen.rposNotDone, h', Gen.nextAt]
      rw [hnext]
      constructor
      · simp [Gen.wfList, h.1, ih.1]
      · simp [Gen.rankList, ih.2, Gen.nStateList_nextAt]
        omega
    | none =>
      have hdcs : Gen.doneList cs = true := (Gen.rposNotDone_none_iff cs).mp h'
      have hdc : c.done = false := by
        cases ht : c.done with
        | false => rfl
        | true => simp [Gen.doneList, ht, hdcs] at hd
      have ih := Gen.next_rank c h.1 hdc
      have hnext : Gen.udtNext (c :: cs) = c.next :: Gen.resetList cs := by
        simp [Gen.udtNext, Gen.rposNotDone, h', hdc, Gen.nextAt]
      rw [hnext]
      have hr : Gen.rankList cs + 1 = Gen.nStateList cs :=
        (Gen.doneList_iff_rankList cs h.2).mp hdcs
      constructor
      · simp [Gen.wfList, ih.1, Gen.wfList_resetList cs h.2]
      · simp [Gen.rankList, ih.2, Gen.nStateList_resetList,
          Gen.rankList_resetList, Nat.succ_mul]
        omega
end

theorem Gen.next_iterate_udt : ∀ (k : Nat) (cs : List Gen),
    Gen.next^[k] (Gen.udt cs) = Gen.udt (Gen.udtNext^[k] cs)
  | 0, cs => rfl
  | k + 1, cs => by
    rw [Function.iterate_succ_apply', Function.iterate_succ_apply',
      Gen.next_iterate_udt k cs, Gen.next_udt]

theorem Gen.udtIter_invariant (cs : List Gen) (hwf : Gen.wfList cs = true)
    (h0 : Gen.rankList cs = 0) :
    ∀ k, k < Gen.nStateList cs →
      Gen.wfList (Gen.udtNext^[k] cs) = true ∧
      Gen.rankList (Gen.udtNext^[k] cs) = k ∧
      (Gen.udtNext^[k] cs).map Gen.nState = cs.map Gen.nState := by
  intro k
  induction k with
  | zero => intro _; simpa using ⟨hwf, h0⟩
  | succ k ih =>
    intro hk
    obtain ⟨pw, pr, pm⟩ := ih (by omega)
    have hns : Gen.nStateList (Gen.udtNext^[k] cs) = Gen.nStateList cs := by
      rw [Gen.nStateList_eq_prod, pm, ← Gen.nStateList_eq_prod]
    have hdone : Gen.doneList (Gen.udtNext^[k] cs) = false := by
      cases hD : Gen.doneList (Gen.udtNext^[k] cs) with
      | false => rfl
      | true =>
        have := (Gen.doneList_iff_rankList _ pw).mp hD
        rw [pr, hns] at this
        omega
    have step := Gen.udtNext_rank _ pw hdone
    refine ⟨?_, ?_, ?_⟩
    · rw [Function.iterate_succ_apply']
      exact step.1
    · rw [Function.iterate_succ_apply', step.2, pr]
    · rw [Function.iterate_succ_apply', Gen.map_nState_udtNext, pm]

theorem tupleRank_map_rank : ∀ cs : List Gen,
    tupleRank (cs.map Gen.nState) (cs.map Gen.rank) = Gen.rankList cs
  | [] => rfl
  | c :: cs => by
    simp [tupleRank, Gen.rankList, tupleRank_map_rank cs,
      Gen.nStateList_eq_prod]

theorem boundedB_map_rank : ∀ cs : List Gen, Gen.wfList cs = true →
    boundedB (cs.map Gen.nState) (cs.map Gen.rank) = true
  | [], _ => rfl
  | c :: cs, h => by
    simp [Gen.wfList] at h
    simp [boundedB, Gen.rank_lt_nState c h.1, boundedB_map_rank cs h.2]

theorem tupleRank_lt_prod : ∀ ns ts, boundedB ns ts = true →
    tupleRank ns ts < ns.prod
  | [], [], _ => by simp [tupleRank]
  | [], _ :: _, h => by simp [boundedB] at h
  | _ :: _, [], h => by simp [boundedB] at h
  | n :: ns, t :: ts, h => by
    simp [boundedB] at h
    have ih := tupleRank_lt_prod ns ts h.2
    have h2 : t * ns.prod + ns.prod ≤ n * ns.prod := by
      have := mul_le_mul_right' (show t + 1 ≤ n by omega) ns.prod
      rwa [Nat.succ_mul] at this
    simp only [tupleRank, List.prod_cons]
    omega

theorem lexLtB_of_tupleRank_lt : ∀ ns a b, boundedB ns a = true →
    boundedB ns b = true → tupleRank ns a < tupleRank ns b → lexLtB a b = true
  | [], [], [], _, _, h => by simp [tupleRank] at h
  | [], [], _ :: _, _, hb, _ => by simp [boundedB] at hb
  | [], _ :: _, _, ha, _, _ => by simp [boundedB] at ha
  | _ :: _, [], _, ha, _, _ => by simp [boundedB] at ha
  | _ :: _, _ :: _, [], _, hb, _ => by simp [boundedB] at hb
  | n :: ns, x :: xs, y :: ys, ha, hb, h => by
    simp [boundedB] at ha hb
    rcases Nat.lt_trichotomy x y with hxy | hxy | hxy
    · simp [lexLtB, hxy]
    · subst hxy
      have hlt : tupleRank ns xs < tupleRank ns ys := by
        simp only [tupleRank] at h
        omega
      simp [lexLtB, lexLtB_of_tupleRank_lt ns xs ys ha.2 hb.2 hlt]
    · exfalso
      have hrb := tupleRank_lt_prod ns ys hb.2
      have h2 : y * ns.prod + ns.prod ≤ x * ns.prod := by
        have := mul_le_mul_right' (show y + 1 ≤ x by omega) ns.prod
        rwa [Nat.succ_mul] at this
      simp only [tupleRank] at h
      omega

theorem tupleRank_inj : ∀ ns a b, boundedB ns a = true →
    boundedB ns b = true → tupleRank ns a = tupleRank ns b → a = b
  | [], [], [], _, _, _ => rfl
  | [], [], _ :: _, _, hb, _ => by simp [boundedB] at hb
  | [], _ :: _, _, ha, _, _ => by simp [boundedB] at ha
  | _ :: _, [], _, ha, _, _ => by simp [boundedB] at ha
  | _ :: _, _ :: _, [], _, hb, _ => by simp [boundedB] at hb
  | n :: ns, x :: xs, y :: ys, ha, hb, h => by
    simp [boundedB] at ha hb
    have hra := tupleRank_lt_prod ns xs ha.2
    have hrb := tupleRank_lt_prod ns ys hb.2
    have hxy : x = y := by
      rcases Nat.lt_trichotomy x y with hlt | heq | hgt
      · exfalso
        have h2 : x * ns.prod + ns.prod ≤ y * ns.prod := by
          have := mul_le_mul_right' (show x + 1 ≤ y by omega) ns.prod
          rwa [Nat.succ_mul] at this
        simp only [tupleRank] at h
        omega
      · exact heq
      · exfalso
        have h2 : y * ns.prod + ns.prod ≤ x * ns.prod := by
          have := mul_le_mul_right' (show y + 1 ≤ x by omega) ns.prod
          rwa [Nat.succ_mul] at this
        simp only [tupleRank] at h
        omega
    subst hxy
    have hts : tupleRank ns xs = tupleRank ns ys := by
      simp only [tupleRank] at h
      omega
    rw [tupleRank_inj ns xs ys ha.2 hb.2 hts]

mutual
theorem genOfType_shape : ∀ g : Gen, genOfType g.shape = g.reset
  | .scalar n idx => by simp [Gen.shape, genOfType, Gen.reset]
  | .cstring idx => by simp [Gen.shape, genOfType, Gen.reset]
  | .udt cs => by
    simp [Gen.shape, genOfType, Gen.reset, genOfTypeList_shapeList cs]

theorem genOfTypeList_shapeList : ∀ cs : List Gen,
    genOfTypeList (Gen.shapeList cs) = Gen.resetList cs
  | [] => rfl
  | c :: cs => by
    simp [Gen.shapeList, genOfTypeList, Gen.resetList, genOfType_shape c,
      genOfTypeList_shapeList cs]
end

mutual
theorem Gen.shape_reset : ∀ g : Gen, g.reset.shape = g.shape
  | .scalar n idx => by simp [Gen.reset, Gen.shape]
  | .cstring idx => by simp [Gen.reset, Gen.shape]
  | .udt cs => by
    simp [Gen.reset, Gen.shape, Gen.shapeList_resetList cs]

theorem Gen.shapeList_resetList : ∀ cs : List Gen,
    Gen.shapeList (Gen.resetList cs) = Gen.shapeList cs
  | [] => rfl
  | c :: cs => by
    simp [Gen.resetList, Gen.shapeList, Gen.shape_reset c,
      Gen.shapeList_resetList cs]
end

mutual
theorem Gen.shape_next : ∀ g : Gen, g.next.shape = g.shape
  | .scalar n idx => by
    by_cases h : idx < n - 1 <;> simp [Gen.next, h, Gen.shape]
  | .cstring idx => by
    by_cases h : idx < 8 <;> simp [Gen.next, h, Gen.shape]
  | .udt cs => by
    cases h : Gen.rposNotDone cs with
    | none => simp [Gen.next, h]
    | some k => simp [Gen.next, h, Gen.shape, Gen.shapeList_nextAt k cs]

theorem Gen.shapeList_nextAt : ∀ (k : Nat) (cs : List Gen),
    Gen.shapeList (Gen.nextAt k cs) = Gen.shapeList cs
  | _, [] => by simp [Gen.nextAt]
  | 0, c :: cs => by
    simp [Gen.nextAt, Gen.shapeList, Gen.shape_next c,
      Gen.shapeList_resetList cs]
  | k + 1, c :: cs => by
    simp [Gen.nextAt, Gen.shapeList, Gen.shapeList_nextAt k cs]
end

mutual
theorem shape_genOfType : ∀ t : Ty, (genOfType t).shape = t
  | .scalarTy n => by simp [genOfType, Gen.shape]
  | .cstringTy => by simp [genOfType, Gen.shape]
  | .udtTy fs => by
    simp [genOfType, Gen.shape, shapeList_genOfTypeList fs]

theorem shapeList_genOfTypeList : ∀ ts : List Ty,
    Gen.shapeList (genOfTypeList ts) = ts
  | [] => rfl
  | t :: ts => by
    simp [genOfTypeList, Gen.shapeList, shape_genOfType t,
      shapeList_genOfTypeList ts]
end

theorem applyOps_cons (op : GOp) (s : List GOp) (g : Gen) :
    applyOps (op :: s) g = applyOps s (applyOp op g) := rfl

theorem shape_applyOps : ∀ (s : List GOp) (g : Gen),
    (applyOps s g).shape = g.shape
  | [], g => rfl
  | op :: s, g => by
    rw [applyOps_cons, shape_applyOps s (applyOp op g)]
    cases op
    · exact Gen.shape_next g
    · exact Gen.shape_reset g

theorem rejSample_fst_ge (lo hi : Nat) (bad : List Nat) (tape : Nat → Nat) :
    ∀ (pos fuel : Nat), lo ≤ (rejSample lo hi bad tape pos fuel).1
  | pos, 0 => by simp [rejSample, sampleIn]
  | pos, fuel + 1 => by
    simp only [rejSample]
    split
    · exact rejSample_fst_ge lo hi bad tape (pos + 1) fuel
    · simp [sampleIn]

theorem genChars_all_ge (sampler : Nat → Nat × Nat) (lo : Nat)
    (hs : ∀ p, lo ≤ (sampler p).1) :
    ∀ (count pos : Nat),
      ((genChars sampler count pos).all (fun c => decide (lo ≤ c))) = true
  | 0, _ => rfl
  | count + 1, pos => by
    simp only [genChars, List.all_cons, Bool.and_eq_true, decide_eq_true_eq]
    exact ⟨hs pos, genChars_all_ge sampler lo hs count (sampler pos).2⟩

/-- C1: for every composite (UDT) generator over well-formed children, the
full traversal that starts from the reset state and reads the tuple of child
indices before each `next()` until `done()` visits exactly `n_state()` index
tuples: `done()` is false before each of the first `n_state()-1` advances and
true after the last one, and the read sequence `travTuples` has length
`n_state()`, no duplicates, is strictly lexicographically increasing with the
first child most significant, and contains every bounded index tuple (no
skipped combination). -/
theorem genUDT_traversal_lex_exhaustive :
    ∀ cs : List Gen, Gen.wfList cs = true →
      (∀ k, k + 1 < Gen.nState (Gen.udt cs) →
        Gen.done (Gen.next^[k] (Gen.reset (Gen.udt cs))) = false) ∧
      Gen.done (Gen.next^[Gen.nState (Gen.udt cs) - 1]
        (Gen.reset (Gen.udt cs))) = true ∧
      (travTuples cs).length = Gen.nState (Gen.udt cs) ∧
      (travTuples cs).Nodup ∧
      List.Chain' (fun a b => lexLtB a b = true) (travTuples cs) ∧
      (∀ t, boundedB (cs.map Gen.nState) t = true → t ∈ travTuples cs) := by
  intro cs hwf
  have hwf0 : Gen.wfList (Gen.resetList cs) = true := Gen.wfList_resetList cs hwf
  have hr0 : Gen.rankList (Gen.resetList cs) = 0 := Gen.rankList_resetList cs
  have hm0 : (Gen.resetList cs).map Gen.nState = cs.map Gen.nState :=
    Gen.map_nState_resetList cs
  have hN : Gen.nState (Gen.udt cs) = Gen.nStateList cs := Gen.nState_udt cs
  have hN0 : Gen.nStateList (Gen.resetList cs) = Gen.nStateList cs :=
    Gen.nStateList_resetList cs
  have hN1 : 1 ≤ Gen.nStateList cs := Gen.one_le_nStateList cs hwf
  have hreset : Gen.reset (Gen.udt cs) = Gen.udt (Gen.resetList cs) := rfl
  have key : ∀ k, k < Gen.nStateList cs →
      Gen.wfList (Gen.udtNext^[k] (Gen.resetList cs)) = true ∧
      Gen.rankList (Gen.udtNext^[k] (Gen.resetList cs)) = k ∧
      (Gen.udtNext^[k] (Gen.resetList cs)).map Gen.nState = cs.map Gen.nState := by
    intro k hk
    obtain ⟨a, b, c⟩ := Gen.udtIter_invariant (Gen.resetList cs) hwf0 hr0 k
      (by rw [hN0]; exact hk)
    exact ⟨a, b, c.trans hm0⟩
  have stN : ∀ k, k < Gen.nStateList cs →
      Gen.nStateList (Gen.udtNext^[k] (Gen.resetList cs)) = Gen.nStateList cs := by
    intro k hk
    rw [Gen.nStateList_eq_prod, (key k hk).2.2, ← Gen.nStateList_eq_prod]
  have tuple_eq : ∀ k, Gen.idxTuple (Gen.next^[k] (Gen.reset (Gen.udt cs))) =
      (Gen.udtNext^[k] (Gen.resetList cs)).map Gen.rank := by
    intro k
    rw [hreset, Gen.next_iterate_udt]
    rfl
  have trank : ∀ k, k < Gen.nStateList cs →
      tupleRank (cs.map Gen.nState)
        ((Gen.udtNext^[k] (Gen.resetList cs)).map Gen.rank) = k := by
    intro k hk
    obtain ⟨a, b, c⟩ := key k hk
    rw [← c, tupleRank_map_rank]
    exact b
  have tbound : ∀ k, k < Gen.nStateList cs →
      boundedB (cs.map Gen.nState)
        ((Gen.udtNext^[k] (Gen.resetList cs)).map Gen.rank) = true := by
    intro k hk
    obtain ⟨a, _, c⟩ := key k hk
    rw [← c]
    exact boundedB_map_rank _ a
  have hdone_iff : ∀ k, k < Gen.nStateList cs →
      (Gen.done (Gen.next^[k] (Gen.reset (Gen.udt cs))) = true ↔
        k + 1 = Gen.nStateList cs) := by
    intro k hk
    obtain ⟨a, b, _⟩ := key k hk
    rw [hreset, Gen.next_iterate_udt]
    have hd : Gen.done (Gen.udt (Gen.udtNext^[k] (Gen.resetList cs))) =
        Gen.doneList (Gen.udtNext^[k] (Gen.resetList cs)) := by
      simp [Gen.done]
    rw [hd, Gen.doneList_iff_rankList _ a, b, stN k hk]
  refine ⟨?_, ?_, ?_, ?_, ?_, ?_⟩
  · intro k hk
    rw [hN] at hk
    have hk' : k < Gen.nStateList cs := by omega
    have := hdone_iff k hk'
    cases hD : Gen.done (Gen.next^[k] (Gen.reset (Gen.udt cs))) with
    | false => rfl
    | true =>
      have := this.mp hD
      omega
  · rw [hN]
    exact (hdone_iff (Gen.nStateList cs - 1) (by omega)).mpr (by omega)
  · simp [travTuples]
  · unfold travTuples
    apply List.Nodup.map_on _ (List.nodup_range _)
    intro x hx y hy hfeq
    rw [List.mem_range, hN] at hx hy
    rw [tuple_eq x, tuple_eq y] at hfeq
    have rx := trank x hx
    have ry := trank y hy
    rw [hfeq] at rx
    omega
  · unfold travTuples
    rw [List.chain'_map]
    have hsucc : Gen.nState (Gen.udt cs) = (Gen.nStateList cs - 1) + 1 := by
      rw [hN]; omega
    rw [hsucc, List.chain'_range_succ]
    intro m hm
    rw [tuple_eq m, tuple_eq (m + 1)]
    have hm1 : m < Gen.nStateList cs := by omega
    have hm2 : m + 1 < Gen.nStateList cs := by omega
    apply lexLtB_of_tupleRank_lt (cs.map Gen.nState) _ _ (tbound m hm1)
      (tbound (m + 1) hm2)
    rw [trank m hm1, trank (m + 1) hm2]
    omega
  · intro t hbt
    have hr : tupleRank (cs.map Gen.nState) t < (cs.map Gen.nState).prod :=
      tupleRank_lt_prod _ _ hbt
    rw [← Gen.nStateList_eq_prod] at hr
    have heq : t = (Gen.udtNext^[tupleRank (cs.map Gen.nState) t]
        (Gen.resetList cs)).map Gen.rank := by
      apply tupleRank_inj (cs.map Gen.nState) _ _ hbt
        (tbound _ hr)
      rw [trank _ hr]
    unfold travTuples
    apply List.mem_map.mpr
    refine ⟨tupleRank (cs.map Gen.nState) t, ?_, ?_⟩
    · rw [List.mem_range, hN]
      exact hr
    · rw [tuple_eq, ← heq]

/-- C1 witness: the traversal of a composite over two scalar children with 2
and 3 states reads exactly the six tuples 00,01,02,10,11,12 in that order. -/
theorem genUDT_traversal_lex_exhaustive_witness :
    Gen.wfList [Gen.scalar 2 0, Gen.scalar 3 0] = true ∧
    travTuples [Gen.scalar 2 0, Gen.scalar 3 0] =
      [[0, 0], [0, 1], [0, 2], [1, 0], [1, 1], [1, 2]] ∧
    (travTuples [Gen.scalar 2 0, Gen.scalar 3 0]).Nodup ∧
    List.Chain' (fun a b => lexLtB a b = true)
      (travTuples [Gen.scalar 2 0, Gen.scalar 3 0]) :=
  ⟨rfl, rfl,
    (genUDT_traversal_lex_exhaustive [Gen.scalar 2 0, Gen.scalar 3 0]
      rfl).2.2.2.1,
    (genUDT_traversal_lex_exhaustive [Gen.scalar 2 0, Gen.scalar 3 0]
      rfl).2.2.2.2.1⟩

/-- C2: for every composite (UDT) generator, `n_state()` (the source's
`fold(1, |acc, v| acc * v.n_state())`) equals the product of the children's
state counts, and equals 1 for a composite with zero children. -/
theorem genUDT_nState_eq_prod :
    (∀ cs : List Gen, Gen.nState (Gen.udt cs) = (cs.map Gen.nState).prod) ∧
    Gen.nState (Gen.udt []) = 1 := by
  constructor
  · intro cs
    rw [Gen.nState_udt, Gen.nStateList_eq_prod]
  · rfl

/-- C3 (refuting evidence): `GenCString::next` is not a no-op at the end
state.  At index 7 the generator reports `done()`, yet `next()` (whose guard
is `idx < 8`, not `idx < 7`) moves the state to index 8, so the index state
changes. -/
theorem genCString_next_at_done_mutates :
    Gen.done (Gen.cstring 7) = true ∧
    Gen.next (Gen.cstring 7) = Gen.cstring 8 ∧
    Gen.rank (Gen.next (Gen.cstring 7)) = Gen.rank (Gen.cstring 7) + 1 :=
  ⟨rfl, rfl, rfl⟩

/-- C4 (refuting evidence): the invariant `0 ≤ index < state_count` is not
preserved for `GenCString`: starting from the reset state, eight `next()`
calls drive the index to 8, which equals `n_state()` and violates `Gen.wf`;
`value()` then hits its `assert!(self.idx < 8)` (modelled as `none`). -/
theorem genCString_index_reaches_nState :
    Gen.wf (Gen.reset (Gen.cstring 0)) = true ∧
    Gen.next^[8] (Gen.reset (Gen.cstring 0)) = Gen.cstring 8 ∧
    Gen.rank (Gen.cstring 8) = Gen.nState (Gen.cstring 8) ∧
    Gen.wf (Gen.cstring 8) = false ∧
    (∀ (tape : Nat → Nat) (fuel : Nat), cstringValue 8 tape fuel = none) :=
  ⟨rfl, rfl, rfl, rfl, fun _ _ => rfl⟩

/-- C5 (refuting evidence): `GenCString::value` at class index 0 returns the
two-character text `""` — the very same value the empty-string class at index
1 produces — rather than a distinct null (not-a-string) representative such
as `NULL`. -/
theorem genCString_null_class_equals_empty_class :
    ∀ (tape : Nat → Nat) (fuel : Nat),
      cstringValue 0 tape fuel = some "\"\"" ∧
      cstringValue 1 tape fuel = cstringValue 0 tape fuel :=
  fun _ _ => ⟨rfl, rfl⟩

/-- C6 (refuting evidence): in the mixed class (index 6) the per-character
choice `Range::new(0,1).ind_sample(..)` always yields 0, so the special
branch is dead: on every random tape every generated character code is ≥ 32,
i.e. no control character can ever appear. -/
theorem genCString_mixed_class_never_special :
    ∀ (tape : Nat → Nat) (fuel : Nat),
      (∀ d, sampleIn 0 1 d = 0) ∧
      ((cstringChars 6 tape fuel).all (fun c => decide (32 ≤ c))) = true := by
  intro tape fuel
  constructor
  · intro d
    simp [sampleIn, Nat.mod_one]
  · simp only [cstringChars]
    apply genChars_all_ge
    intro p
    have h0 : sampleIn 0 1 (tape p) = 0 := by simp [sampleIn, Nat.mod_one]
    simp only [h0, Nat.zero_eq, beq_self_eq_true, if_true]
    exact rejSample_fst_ge 32 126 normalDisallowed tape (p + 1) fuel

/-- C7: for every generator kind and every sequence of `next`/`reset`
operations applied after construction, calling `reset()` returns the
generator to exactly the state produced by construction (`generator(ty)`), so
a subsequent `value()` observes the same state — and hence the same value
distribution — as immediately after construction. -/
theorem generator_reset_restores_construction :
    ∀ (t : Ty) (s : List GOp),
      Gen.reset (applyOps s (genOfType t)) = genOfType t := by
  intro t s
  have h1 : genOfType ((applyOps s (genOfType t)).shape) =
      Gen.reset (applyOps s (genOfType t)) := genOfType_shape _
  rw [← h1, shape_applyOps, shape_genOfType]

/-- C8: `resolve_types` fails fatally (its `assert!(decls.len() > 0)`) on an
empty declaration list, and succeeds only on a non-empty list; the empty list
is rejected before any generator is constructed (the function builds no
generator at all — its `Source` vector is the literal `vec![]`). -/
theorem resolve_types_rejects_empty :
    resolveTypes [] = Except.error "assertion failed: decls.len() > 0" ∧
    ∀ (ds : List Declaration) (res : List TDecl × List Source),
      resolveTypes ds = Except.ok res → ds ≠ [] := by
  constructor
  · rfl
  · intro ds res h hds
    subst hds
    simp [resolveTypes] at h

/-- C8 witness: a singleton declaration list resolves successfully and is
non-empty. -/
theorem resolve_types_rejects_empty_witness :
    resolveTypes [Declaration.Function ⟨"f", DeclType.Basic RType.Integer, []⟩] =
      Except.ok ([], []) ∧
    [Declaration.Function ⟨"f", DeclType.Basic RType.Integer, []⟩] ≠
      ([] : List Declaration) :=
  ⟨rfl, resolve_types_rejects_empty.2
    [Declaration.Function ⟨"f", DeclType.Basic RType.Integer, []⟩] ([], []) rfl⟩

/-- C9 counterexample: a user-defined-type declaration whose two members are
both named `x` is accepted by `resolve_types` (no fatal duplicate-name
failure), and lowering that struct type yields a struct named
`_unnamed_struct_` whose field names are the placeholder `_unnamed_`, not the
declared member names. -/
theorem resolve_types_accepts_duplicate_members :
    resolveTypes [Declaration.UDT (UDTDecl.mk "S" (DeclType.Struct
      [UDTDecl.mk "x" (DeclType.Basic RType.I32),
       UDTDecl.mk "x" (DeclType.Basic RType.I32)]))] = Except.ok ([], []) ∧
    typeFromDecl (DeclType.Struct
      [UDTDecl.mk "x" (DeclType.Basic RType.I32),
       UDTDecl.mk "x" (DeclType.Basic RType.I32)]) =
      Except.ok (RType.Struct "_unnamed_struct_"
        [("_unnamed_", RType.I32), ("_unnamed_", RType.I32)]) :=
  ⟨rfl, rfl⟩

/-- C9 amended: resolution performs no member-name uniqueness validation.
Every user-defined-type declaration — duplicate member names included — is
skipped by `resolve_types` and resolves successfully contributing nothing,
and the struct-lowering loop discards the declared member names entirely,
emitting the placeholder field name `_unnamed_` for every `Basic` member (so
an arbitrarily duplicated member name can never be rejected). -/
theorem resolve_types_no_uniqueness_validation :
    (∀ u : UDTDecl, resolveTypes [Declaration.UDT u] = Except.ok ([], [])) ∧
    (∀ (nm : String) (tys : List RType),
      structFields (tys.map (fun ty => UDTDecl.mk nm (DeclType.Basic ty))) =
        Except.ok (tys.map (fun ty => ("_unnamed_", ty)))) := by
  constructor
  · intro u
    rfl
  · intro nm tys
    induction tys with
    | nil => rfl
    | cons ty rest ih => simp [structFields, ih]

/-- C10: `Source::bound` and `Source::retval` always install the `GenNothing`
generator, whose `done()` is true, `n_state()` is 1, and whose `value()` and
`next()` panic unconditionally (modelled as `none`); `Source::free` always
installs a real generator built by `variable::generator`, so code that calls
`value`/`advance` only on free sources can never reach the panicking
branches. -/
theorem bound_retval_carry_gen_nothing :
    (∀ (p : Source) (o : ScalarOp),
      (Source.bound p o).generator = BoxedGen.nothing) ∧
    (∀ (nm fq : String) (o : ScalarOp),
      (Source.retval nm fq o).generator = BoxedGen.nothing) ∧
    genNothingDone = true ∧
    genNothingNState = 1 ∧
    genNothingValue = none ∧
    genNothingNext = none ∧
    (∀ (nm : String) (t : Ty) (o : ScalarOp),
      (Source.free nm t o).generator.isNothing = false) :=
  ⟨fun _ _ => rfl, fun _ _ _ => rfl, rfl, rfl, rfl, rfl, fun _ _ _ => rfl⟩
